import Mathlib

/-!
Verification development for the TERVYX Amazon claims pipeline.

Shallow embedding of the normalization script
(`scripts/4_normalize_to_csv.py`), the QC validator
(`scripts/5_qc_validate.py`) and the sampling-weight estimator
(`scripts/6_sampling_weights.py`).  Python dictionaries are modelled as
insertion-ordered association lists, Python floats as rationals, external
library functions (regular-expression search, SHA-256, float formatting)
as function parameters.
-/

namespace Tervyx

/-! ### Association lists modelling Python dicts (insertion ordered) -/

/-- First-match lookup, modelling `d[k]` / `d.get(k)`. -/
def dlookup {α : Type} : List (String × α) → String → Option α
  | [], _ => none
  | (k, v) :: rest, key => if k = key then some v else dlookup rest key

/-- `d[k] = v`: replace the value of an existing key in place,
otherwise append the new binding at the end (dict insertion order). -/
def dictUpdate {α : Type} : List (String × α) → String → α → List (String × α)
  | [], key, v => [(key, v)]
  | (k, w) :: rest, key, v =>
      if k = key then (key, v) :: rest else (k, w) :: dictUpdate rest key v

/-- `k in d`: key-membership test. -/
def hasKey {α : Type} (d : List (String × α)) (key : String) : Bool :=
  d.any (fun kv => kv.1 = key)

theorem dlookup_dictUpdate_ne {α : Type} (d : List (String × α)) (key k : String)
    (v : α) (h : k ≠ key) : dlookup (dictUpdate d key v) k = dlookup d k := by
  induction d with
  | nil => simp [dictUpdate, dlookup, Ne.symm h]
  | cons kv rest ih =>
      obtain ⟨k0, w⟩ := kv
      by_cases hk : k0 = key
      · subst hk
        simp [dictUpdate, dlookup, Ne.symm h]
      · simp [dictUpdate, hk, dlookup, ih]

theorem dlookup_append {α : Type} (l m : List (String × α)) (k : String) :
    dlookup (l ++ m) k =
      match dlookup l k with
      | some v => some v
      | none => dlookup m k := by
  induction l with
  | nil => simp [dlookup]
  | cons kv rest ih =>
      by_cases hk : kv.1 = k
      · simp [dlookup, hk]
      · simpa [dlookup, hk] using ih

theorem dlookup_none_iff {α : Type} (d : List (String × α)) (k : String) :
    dlookup d k = none ↔ ∀ kv ∈ d, kv.1 ≠ k := by
  induction d with
  | nil => simp [dlookup]
  | cons kv rest ih =>
      by_cases hk : kv.1 = k
      · simp [dlookup, hk]
      · simp [dlookup, hk, ih]

theorem hasKey_iff_lookup_isSome {α : Type} (d : List (String × α)) (k : String) :
    hasKey d k = true ↔ (dlookup d k).isSome := by
  induction d with
  | nil => simp [hasKey, dlookup]
  | cons kv rest ih =>
      by_cases hk : kv.1 = k
      · simp [hasKey, dlookup, hk]
      · simp [hasKey, dlookup, hk] at ih ⊢
        exact ih

/-! ### String helpers -/

/-- `isPrefixChars n h` : the char list `n` is a prefix of `h`. -/
def isPrefixChars : List Char → List Char → Bool
  | [], _ => true
  | _ :: _, [] => false
  | a :: as, b :: bs => a = b && isPrefixChars as bs

/-- `containsSub n h` : the char list `n` occurs contiguously in `h`. -/
def containsSub (needle : List Char) : List Char → Bool
  | [] => needle.isEmpty
  | c :: cs => isPrefixChars needle (c :: cs) || containsSub needle cs

/-- Case-insensitive substring test, modelling
`needle.lower() in hay.lower()`. -/
def occursIn (needle hay : String) : Bool :=
  containsSub (needle.data.map Char.toLower) (hay.data.map Char.toLower)

/-- Suffix test on strings, modelling Python's `str.endswith`. -/
def endsWithStr (s suffix : String) : Bool :=
  isPrefixChars suffix.data.reverse s.data.reverse

/-- Zero-padded decimal of width (at least) 4, Python's `f"{n:04d}"`
for a natural number. -/
def pad4 (n : Nat) : String :=
  let s := toString n
  String.mk (List.replicate (4 - s.length) '0') ++ s

/-! ### Gate-hint classifier (`4_normalize_to_csv.py`, detectors and resolver)

Regular-expression search (`re.search(pattern, text, re.IGNORECASE)`) is an
external library call; it is modelled by a matcher parameter
`m : String → String → Bool` taking the pattern and the subject text. -/

/-- Policy-hints configuration: Φ and K map a hint id to its pattern
list, L maps a token to its integer weight. -/
structure HintConf where
  phi : List (String × List String)
  k : List (String × List String)
  l : List (String × Int)

/-- `map_phi_hints` from the source: a hint id is emitted when any of
its patterns matches the claim text (inner loop with `break`). -/
def map_phi_hints (m : String → String → Bool) (text : String)
    (hints : HintConf) : List String :=
  hints.phi.foldr
    (fun conf acc =>
      if conf.2.any (fun pat => m pat text) then conf.1 :: acc else acc) []

/-- `map_k_hints` from the source: identical matching, but against the
claim text concatenated with the ingredient strings. -/
def map_k_hints (m : String → String → Bool) (text : String)
    (ingredients : List String) (hints : HintConf) : List String :=
  let combined := text ++ " " ++ String.intercalate " " ingredients
  hints.k.foldr
    (fun conf acc =>
      if conf.2.any (fun pat => m pat combined) then conf.1 :: acc else acc) []

/-- `map_l_tokens` from the source: sum the weights of every configured
token occurring case-insensitively in the text, collecting the matched
tokens in configuration order. -/
def map_l_tokens (text : String) (hints : HintConf) : List String × Int :=
  hints.l.foldl
    (fun acc tw =>
      if occursIn tw.1 text then (acc.1 ++ [tw.1], acc.2 + tw.2) else acc)
    ([], 0)

/-- `compute_gate_hint` from the source: fixed resolution priority. -/
def compute_gate_hint (phi_ids k_ids : List String) (l_score : Int) : String :=
  if k_ids ≠ [] then "k_candidate"
  else if phi_ids ≠ [] then "phi_candidate"
  else if 3 ≤ l_score then "l_hard"
  else if 0 < l_score then "l_soft"
  else "none"

/-! ### Normalizer data model (`4_normalize_to_csv.py`, `main`)

One JSONL entry (`json.loads(line)`) carries an asin, a page hash, the
extraction metadata and a list of raw claims; absent JSON keys are
modelled with `Option` and the `.get(key, default)` defaults are applied
exactly where the source applies them. -/

/-- One raw claim object inside a JSONL entry. -/
structure RawClaim where
  text : String
  claim_type : Option String := none
  implied_outcome : Option String := none
  quantifier : Option String := none
  source : Option String := none
  bbox : Option String := none
  has_numeric_quantifier : Option Bool := none
  quant_value : Option String := none
  quant_unit : Option String := none
  comparator : Option String := none
  confidence : Option ℚ := none
deriving DecidableEq

/-- `entry["extraction"]`. -/
structure ExtractionMeta where
  model : String
  version : String
  temperature : ℚ
deriving DecidableEq

/-- One line of the `claims_raw.jsonl` stream. -/
structure Entry where
  asin : String
  page_sha256 : String
  extraction : ExtractionMeta
  claims : List RawClaim
deriving DecidableEq

/-- One row of the product-URLs CSV used as join metadata
(`url_meta[row["asin"]] = row`); columns that may be missing are
`Option`-valued. -/
structure UrlMeta where
  asin : String
  category_hint : Option String := none
  cohort : Option String := none
  method : Option String := none
deriving DecidableEq

/-- A product row as built by the normalizer (dict literal at
`products[asin] = {...}`); aggregate fields carry their natural types,
serialization renders them exactly as the source's strings. -/
structure ProductRec where
  asin : String
  platform : String
  category_path : String
  intervention_type : String
  product_title : String
  brand : String
  price : String
  currency : String
  product_url : String
  wayback_url : String
  captured_at : String
  sampling_cohort : String
  selection_method : String
  sampling_weight : String
  sampling_frame_version : String
  product_sha256 : String
  ingredients_raw : String
  ingredients_norm : String
  risk_hits : String
  fda_warning_match : String
  phi_any_candidate : Bool
  k_any_candidate : Bool
  l_max_token_score : Int
deriving DecidableEq

/-- A claim row as appended by the normalizer (dict literal at
`claims.append({...})`). -/
structure ClaimRec where
  asin : String
  claim_id : String
  claim_text_verbatim : String
  claim_type : String
  implied_outcome : String
  quantifier : String
  has_citation : String
  source : String
  ocr_bbox : String
  extraction_model : String
  extraction_version : String
  extraction_temperature : ℚ
  claim_sha256 : String
  page_sha256 : String
  claim_scope : String
  has_numeric_quantifier : Bool
  quant_value : String
  quant_unit : String
  comparator : String
  phi_hint_ids : List String
  k_hint_ids : List String
  l_tokens : List String
  l_token_score : Int
  ingredient_hits : String
  medical_scope_flag : String
  evidence_anchor_id : String
  extract_confidence : ℚ
  claim_group_id : String
  gate_hint : String
  review_needed : Bool
deriving DecidableEq

/-- External-function parameters of the normalizer run: the regex
matcher behind `re.search(..., re.IGNORECASE)`, the hints configuration,
SHA-256 hex digesting (`hashlib.sha256(s.encode()).hexdigest()`) and
Python float-to-string rendering (`str(x)`). -/
structure NormParams where
  m : String → String → Bool
  hints : HintConf
  sha : String → String
  fmtQ : ℚ → String

/-- Product-record initialization on first encounter of an asin
(`products[asin] = {...}` with `meta = url_meta.get(asin, {})`). -/
def initProduct (meta : Option UrlMeta) (asin page_sha : String) : ProductRec :=
  { asin := asin
    platform := "amazon"
    category_path := (meta.bind (fun u => u.category_hint)).getD ""
    intervention_type := "supplement"
    product_title := "Product " ++ asin
    brand := ""
    price := ""
    currency := "USD"
    product_url := "https://www.amazon.com/dp/" ++ asin
    wayback_url := "https://web.archive.org/web/20251112000000/..."
    captured_at := "2025-11-12T00:00:00Z"
    sampling_cohort := (meta.bind (fun u => u.cohort)).getD "R"
    selection_method := (meta.bind (fun u => u.method)).getD "random"
    sampling_weight :=
      if (meta.bind (fun u => u.cohort)) = some "R" then "1.0" else ""
    sampling_frame_version := "v2025-11-12"
    product_sha256 := page_sha
    ingredients_raw := ""
    ingredients_norm := "[]"
    risk_hits := "[]"
    fda_warning_match := "false"
    phi_any_candidate := false
    k_any_candidate := false
    l_max_token_score := 0 }

/-- A raw claim together with the entry context it was read from. -/
structure CtxClaim where
  asin : String
  page : String
  model : String
  version : String
  temperature : ℚ
  claim : RawClaim
deriving DecidableEq

/-- The claim record appended for the global claim ordinal `idx`
(the source's `claim_id = f"{asin}_c{len(claims):04d}"` block). -/
def mkClaim (ps : NormParams) (idx : Nat) (cc : CtxClaim) : ClaimRec :=
  let phi_ids := map_phi_hints ps.m cc.claim.text ps.hints
  let k_ids := map_k_hints ps.m cc.claim.text [] ps.hints
  let lpair := map_l_tokens cc.claim.text ps.hints
  { asin := cc.asin
    claim_id := cc.asin ++ "_c" ++ pad4 idx
    claim_text_verbatim := cc.claim.text
    claim_type := cc.claim.claim_type.getD "efficacy"
    implied_outcome := cc.claim.implied_outcome.getD ""
    quantifier := cc.claim.quantifier.getD ""
    has_citation := "false"
    source := cc.claim.source.getD "html"
    ocr_bbox := cc.claim.bbox.getD ""
    extraction_model := cc.model
    extraction_version := cc.version
    extraction_temperature := cc.temperature
    claim_sha256 := ps.sha cc.claim.text
    page_sha256 := cc.page
    claim_scope := "wellness"
    has_numeric_quantifier := cc.claim.has_numeric_quantifier.getD false
    quant_value := cc.claim.quant_value.getD ""
    quant_unit := cc.claim.quant_unit.getD ""
    comparator := cc.claim.comparator.getD ""
    phi_hint_ids := phi_ids
    k_hint_ids := k_ids
    l_tokens := lpair.1
    l_token_score := lpair.2
    ingredient_hits := "[]"
    medical_scope_flag := "false"
    evidence_anchor_id := ""
    extract_confidence := cc.claim.confidence.getD (9 / 10)
    claim_group_id := ""
    gate_hint := compute_gate_hint phi_ids k_ids lpair.2
    review_needed := decide (cc.claim.confidence.getD 1 < 4 / 5) }

/-- Per-claim product-aggregate update (the `# Update product aggregates`
block: OR-fold of Φ/K candidacy, max-fold of the L score). -/
def updAgg (pr : ProductRec) (phi_ids k_ids : List String) (l_score : Int) :
    ProductRec :=
  { pr with
    phi_any_candidate := if phi_ids ≠ [] then true else pr.phi_any_candidate
    k_any_candidate := if k_ids ≠ [] then true else pr.k_any_candidate
    l_max_token_score := max pr.l_max_token_score l_score }

/-- Normalizer state: the insertion-ordered product dict and the claim
list accumulated so far. -/
structure NormState where
  prods : List (String × ProductRec)
  claims : List ClaimRec

/-- Processing of one raw claim (the body of `for claim_data in
entry["claims"]`): run the detectors, fold the aggregates into the
owning product, append the claim record. -/
def stepClaim (ps : NormParams) (asin page model version : String)
    (temp : ℚ) (st : NormState) (c : RawClaim) : NormState :=
  let phi_ids := map_phi_hints ps.m c.text ps.hints
  let k_ids := map_k_hints ps.m c.text [] ps.hints
  let lpair := map_l_tokens c.text ps.hints
  { prods :=
      st.prods.map (fun kv =>
        if kv.1 = asin then (kv.1, updAgg kv.2 phi_ids k_ids lpair.2) else kv)
    claims :=
      st.claims ++
        [mkClaim ps st.claims.length
          ⟨asin, page, model, version, temp, c⟩] }

/-- Processing of one JSONL entry: initialize the product record on
first encounter of the asin, then process its claims in order. -/
def stepEntry (ps : NormParams) (urlMeta : List (String × UrlMeta))
    (st : NormState) (e : Entry) : NormState :=
  let st1 : NormState :=
    if hasKey st.prods e.asin then st
    else
      { prods :=
          st.prods ++ [(e.asin, initProduct (dlookup urlMeta e.asin) e.asin e.page_sha256)]
        claims := st.claims }
  e.claims.foldl
    (stepClaim ps e.asin e.page_sha256 e.extraction.model
      e.extraction.version e.extraction.temperature) st1

/-- The URL-metadata dict (`url_meta[row["asin"]] = row`, later rows
overwriting earlier ones). -/
def buildUrlMeta (rows : List UrlMeta) : List (String × UrlMeta) :=
  rows.foldl (fun d r => dictUpdate d r.asin r) []

/-- The normalizer's single streaming pass over the JSONL entries. -/
def processEntries (ps : NormParams) (urlRows : List UrlMeta)
    (entries : List Entry) : NormState :=
  entries.foldl (stepEntry ps (buildUrlMeta urlRows)) ⟨[], []⟩

/-! ### CSV / JSON rendering (Python `csv.DictWriter`, `json.dumps`) -/

/-- The double-quote character. -/
def dq : Char := Char.ofNat 34

/-- The backslash character. -/
def bsl : Char := Char.ofNat 92

/-- QUOTE_MINIMAL: a field is quoted when it contains a delimiter,
quote or newline character. -/
def csvNeedsQuote (s : String) : Bool :=
  s.data.any (fun c => c = Char.ofNat 44 || c = dq || c = Char.ofNat 10 || c = Char.ofNat 13)

/-- Render one CSV field, doubling embedded quotes when quoting. -/
def csvField (s : String) : String :=
  if csvNeedsQuote s then
    String.singleton dq ++
      String.join (s.data.map (fun c =>
        if c = dq then String.mk [dq, dq] else String.singleton c)) ++
      String.singleton dq
  else s

/-- Render one CSV record with the `\r\n` terminator of `csv.writer`. -/
def csvLine (fs : List String) : String :=
  String.intercalate "," (fs.map csvField) ++ String.mk [Char.ofNat 13, Char.ofNat 10]

/-- Render a whole table (header row first). -/
def csvTable (rows : List (List String)) : String :=
  String.join (rows.map csvLine)

/-- `json.dumps` string escaping, restricted to the quote and backslash
escapes (the claim texts in scope contain no control characters). -/
def jsonStringLit (s : String) : String :=
  String.singleton dq ++
    String.join (s.data.map (fun c =>
      if c = dq then String.mk [bsl, dq]
      else if c = bsl then String.mk [bsl, bsl]
      else String.singleton c)) ++
    String.singleton dq

/-- `json.dumps` of a list of strings (default separators `", "`). -/
def jsonListStr (xs : List String) : String :=
  "[" ++ String.intercalate ", " (xs.map jsonStringLit) ++ "]"

/-- Python `str(bool).lower()` rendering. -/
def boolStr (b : Bool) : String := if b then "true" else "false"

/-- Product CSV column order (the dict-literal key order). -/
def productHeader : List String :=
  ["asin", "platform", "category_path", "intervention_type", "product_title",
   "brand", "price", "currency", "product_url", "wayback_url", "captured_at",
   "sampling_cohort", "selection_method", "sampling_weight",
   "sampling_frame_version", "product_sha256", "ingredients_raw",
   "ingredients_norm", "risk_hits", "fda_warning_match", "phi_any_candidate",
   "k_any_candidate", "l_max_token_score"]

/-- Serialize one product row in column order. -/
def productRow (pr : ProductRec) : List String :=
  [pr.asin, pr.platform, pr.category_path, pr.intervention_type,
   pr.product_title, pr.brand, pr.price, pr.currency, pr.product_url,
   pr.wayback_url, pr.captured_at, pr.sampling_cohort, pr.selection_method,
   pr.sampling_weight, pr.sampling_frame_version, pr.product_sha256,
   pr.ingredients_raw, pr.ingredients_norm, pr.risk_hits,
   pr.fda_warning_match, boolStr pr.phi_any_candidate,
   boolStr pr.k_any_candidate, toString pr.l_max_token_score]

/-- Claims CSV column order (the dict-literal key order). -/
def claimsHeader : List String :=
  ["asin", "claim_id", "claim_text_verbatim", "claim_type", "implied_outcome",
   "quantifier", "has_citation", "source", "ocr_bbox", "extraction_model",
   "extraction_version", "extraction_temperature", "claim_sha256",
   "page_sha256", "claim_scope", "has_numeric_quantifier", "quant_value",
   "quant_unit", "comparator", "phi_hint_ids", "k_hint_ids", "l_tokens",
   "l_token_score", "ingredient_hits", "medical_scope_flag",
   "evidence_anchor_id", "extract_confidence", "claim_group_id", "gate_hint",
   "review_needed"]

/-- Serialize one claim row in column order; number-typed fields are
rendered through the run's float formatter. -/
def claimRow (ps : NormParams) (c : ClaimRec) : List String :=
  [c.asin, c.claim_id, c.claim_text_verbatim, c.claim_type,
   c.implied_outcome, c.quantifier, c.has_citation, c.source, c.ocr_bbox,
   c.extraction_model, c.extraction_version, ps.fmtQ c.extraction_temperature,
   c.claim_sha256, c.page_sha256, c.claim_scope,
   boolStr c.has_numeric_quantifier, c.quant_value, c.quant_unit,
   c.comparator, jsonListStr c.phi_hint_ids, jsonListStr c.k_hint_ids,
   jsonListStr c.l_tokens, toString c.l_token_score, c.ingredient_hits,
   c.medical_scope_flag, c.evidence_anchor_id, ps.fmtQ c.extract_confidence,
   c.claim_group_id, c.gate_hint, c.review_needed |> boolStr]

/-- The product table as written by `csv.DictWriter` (values in
insertion order). -/
def serializeProducts (prods : List (String × ProductRec)) : String :=
  csvTable (productHeader :: prods.map (fun kv => productRow kv.2))

/-- The claims table as written by `csv.DictWriter`. -/
def serializeClaims (ps : NormParams) (cls : List ClaimRec) : String :=
  csvTable (claimsHeader :: cls.map (claimRow ps))

/-- The normalizer's output-writing phase.  `fieldnames =
list(list(products.values())[0].keys())` and `fieldnames =
list(claims[0].keys())` index into the row lists, so an empty product
dict raises `IndexError` before the product file holds any rows, and an
empty claim list raises `IndexError` after the product file was written
but before the claims file holds any rows.  Components: product table if
written, claims table if written, error flag (`IndexError` raised). -/
def writePhase (ps : NormParams) (st : NormState) :
    Option String × Option String × Bool :=
  match st.prods with
  | [] => (none, none, true)
  | _ :: _ =>
      let ptab := serializeProducts st.prods
      match st.claims with
      | [] => (some ptab, none, true)
      | _ :: _ => (some ptab, some (serializeClaims ps st.claims), false)

/-- The whole normalizer run (`main` without argument parsing): stream
the entries, then write both tables. -/
def normalizeMain (ps : NormParams) (urlRows : List UrlMeta)
    (entries : List Entry) : Option String × Option String × Bool :=
  writePhase ps (processEntries ps urlRows entries)

/-! ### Validator (`5_qc_validate.py`)

`jsonschema.validate` is an external library call, modelled by a
parameter returning an optional error message per cleaned row; Python's
`int(...)` / `float(...)` string parsers are likewise parameters. -/

/-- A Python value as manipulated by `validate_csv`'s cleaning passes. -/
inductive PyVal where
  | vnone : PyVal
  | str : String → PyVal
  | bool : Bool → PyVal
  | int : Int → PyVal
  | float : ℚ → PyVal
deriving DecidableEq

/-- Python truthiness of the values reachable in `validate_csv`. -/
def pyTruthy : PyVal → Bool
  | .vnone => false
  | .str s => s ≠ ""
  | .bool b => b
  | .int n => n ≠ 0
  | .float q => q ≠ 0

/-- `int(v)` under `try/except ValueError: pass` — `some` is the coerced
value, `none` means the original value is kept.  Only booleans and
strings reach this point in `validate_csv` (a truthy cleaned value is
never `None`, and no `int`/`float` exists before this pass). -/
def pyIntCoerce (parseI : String → Option Int) : PyVal → Option PyVal
  | .bool b => some (.int (if b then 1 else 0))
  | .str s => (parseI s).map PyVal.int
  | _ => none

/-- `float(v)` under the same convention. -/
def pyFloatCoerce (parseF : String → Option ℚ) : PyVal → Option PyVal
  | .bool b => some (.float (if b then 1 else 0))
  | .str s => (parseF s).map PyVal.float
  | _ => none

/-- Pass 1: `row_cleaned = {k: (v if v != "" else None) ...}`. -/
def emptyToNone (v : String) : PyVal :=
  if v = "" then .vnone else .str v

/-- Pass 2: `if v in ("true", "false"): row_cleaned[k] = (v == "true")`. -/
def boolCoerce : PyVal → PyVal
  | .str s =>
      if s = "true" then .bool true
      else if s = "false" then .bool false
      else .str s
  | v => v

/-- Pass 3: `if v:` then `_score` fields through `int`, `_weight`/`price`
suffixed fields through `float`. -/
def numCoerce (parseI : String → Option Int) (parseF : String → Option ℚ)
    (k : String) (v : PyVal) : PyVal :=
  if pyTruthy v then
    if endsWithStr k "_score" then
      match pyIntCoerce parseI v with
      | some w => w
      | none => v
    else if endsWithStr k "_weight" || endsWithStr k "price" then
      match pyFloatCoerce parseF v with
      | some w => w
      | none => v
    else v
  else v

/-- The three cleaning passes of `validate_csv` applied to one row. -/
def cleanRow (parseI : String → Option Int) (parseF : String → Option ℚ)
    (row : List (String × String)) : List (String × PyVal) :=
  let r1 := row.map (fun kv => (kv.1, emptyToNone kv.2))
  let r2 := r1.map (fun kv => (kv.1, boolCoerce kv.2))
  r2.map (fun kv => (kv.1, numCoerce parseI parseF kv.1 kv.2))

/-- `validate_csv`: clean each row, validate it against the schema
(modelled as an error-message oracle), collect 1-based row errors. -/
def validate_csv (parseI : String → Option Int) (parseF : String → Option ℚ)
    (schemaErr : List (String × PyVal) → Option String)
    (rows : List (List (String × String))) : Bool × List (Nat × String) :=
  let errs :=
    (List.enumFrom 1 rows).filterMap (fun p =>
      match schemaErr (cleanRow parseI parseF p.2) with
      | some msg => some (p.1, msg)
      | none => none)
  (errs.isEmpty, errs)

/-- A claims-table row as consumed by the validator's non-schema checks:
the temperature field carries its parsed `float(...)` value, `none`
models an absent column (`row.get(...)` default). -/
structure QcRow where
  extraction_temperature : Option ℚ := none
  page_sha256 : Option String := none
  claim_sha256 : Option String := none
deriving DecidableEq

/-- The violating rows of `check_extraction_temperature`, with
`enumerate(reader, 1)` numbering starting at `i`. -/
def violRows (i : Nat) : List QcRow → List (Nat × ℚ)
  | [] => []
  | r :: rest =>
      let temp := r.extraction_temperature.getD 0
      (if temp ≠ 0 then [(i, temp)] else []) ++ violRows (i + 1) rest

/-- `check_extraction_temperature`: pass flag plus the error list. -/
def check_extraction_temperature (rows : List QcRow) : Bool × List (Nat × ℚ) :=
  let errs := violRows 1 rows
  (errs.isEmpty, errs)

/-- `check_required_fields` on the claims table for
`["page_sha256", "claim_sha256"]` (`if not row.get(field)`). -/
def check_required_fields (rows : List QcRow) : Bool × List (Nat × String) :=
  let errs :=
    (List.enumFrom 1 rows).flatMap (fun p =>
      (if p.2.page_sha256.getD "" = "" then [(p.1, "page_sha256")] else []) ++
      (if p.2.claim_sha256.getD "" = "" then [(p.1, "claim_sha256")] else []))
  (errs.isEmpty, errs)

/-- The validator `main`: all four checks run, `all_pass` is their
conjunction, the exit code is 0 on success and 1 otherwise.  The two
schema-validation verdicts enter as parameters. -/
def qcMain (productPass claimsPass : Bool) (rows : List QcRow) : Nat :=
  let tempPass := (check_extraction_temperature rows).1
  let reqPass := (check_required_fields rows).1
  if productPass && claimsPass && tempPass && reqPass then 0 else 1

/-! ### Weight estimator (`6_sampling_weights.py`)

CSV rows are insertion-ordered dicts again; `str(...)` rendering of the
written weight is a parameter. -/

/-- A generic CSV row (`csv.DictReader` dict). -/
abbrev CsvRow := List (String × String)

/-- `p.get("category_hint", p.get("stratum", "unknown"))`. -/
def stratumOf (p : CsvRow) : String :=
  (dlookup p "category_hint").getD ((dlookup p "stratum").getD "unknown")

/-- `p.get("sampling_cohort") == "R"`. -/
def isRCohort (p : CsvRow) : Bool :=
  dlookup p "sampling_cohort" = some "R"

/-- `row["asin"]` as used for the weights dict key. -/
def asinKey (p : CsvRow) : String :=
  (dlookup p "asin").getD ""

/-- Python banker's rounding of a rational to an integer. -/
def halfEvenRound (q : ℚ) : ℤ :=
  if q - Int.floor q = 1 / 2 then
    (if Int.floor q % 2 = 0 then Int.floor q else Int.floor q + 1)
  else round q

/-- `round(x, 4)`. -/
def round4 (q : ℚ) : ℚ :=
  (halfEvenRound (q * 10000) : ℚ) / 10000

/-- `stratum_allocation.get(stratum, 1.0 / len(stratum_allocation))`. -/
def allocOf (plan : List (String × ℚ)) (stratum : String) : ℚ :=
  (dlookup plan stratum).getD (1 / (plan.length : ℚ))

/-- `Counter(...)[s]` over the R-cohort rows. -/
def stratumCount (r : List CsvRow) (s : String) : Nat :=
  (r.filter (fun q => stratumOf q = s)).length

/-- The per-row weight: `target_prop / sample_prop` rounded to 4
decimals, 1.0 when the observed proportion is not positive. -/
def wcalc (plan : List (String × ℚ)) (total cnt : Nat) (stratum : String) : ℚ :=
  let target := allocOf plan stratum
  let sampleProp : ℚ := if 0 < total then (cnt : ℚ) / (total : ℚ) else 0
  if 0 < sampleProp then round4 (target / sampleProp) else 1

/-- `compute_weights`: filter the R cohort, then fill the weights dict
row by row. -/
def compute_weights (plan : List (String × ℚ)) (products : List CsvRow) :
    List (String × ℚ) :=
  let r := products.filter isRCohort
  if r.isEmpty then []
  else
    r.foldl
      (fun w p =>
        dictUpdate w (asinKey p)
          (wcalc plan r.length (stratumCount r (stratumOf p)) (stratumOf p)))
      []

/-- The per-row branch of the weight script's rewrite loop:
`if row["asin"] in weights: row["sampling_weight"] = str(weights[...])`. -/
def updRowWeight (fmtW : ℚ → String) (weights : List (String × ℚ))
    (row : CsvRow) : CsvRow :=
  match dlookup weights (asinKey row) with
  | some w => dictUpdate row "sampling_weight" (fmtW w)
  | none => row

/-- The in-place rewrite loop of the weight script's `main`. -/
def applyWeights (fmtW : ℚ → String) (weights : List (String × ℚ))
    (rows : List CsvRow) : List CsvRow :=
  rows.map (updRowWeight fmtW weights)

/-- The weight script end to end: compute the weights from the table,
then rewrite the table. -/
def weightsMain (fmtW : ℚ → String) (plan : List (String × ℚ))
    (rows : List CsvRow) : List CsvRow :=
  applyWeights fmtW (compute_weights plan rows) rows

/-! ### Structure of the normalizer's claim stream -/

/-- The entry context attached to each of its raw claims. -/
def ctxOf (e : Entry) (c : RawClaim) : CtxClaim :=
  ⟨e.asin, e.page_sha256, e.extraction.model, e.extraction.version,
   e.extraction.temperature, c⟩

/-- All raw claims of the stream, in encounter order, with their
context. -/
def flatClaims (entries : List Entry) : List CtxClaim :=
  entries.flatMap (fun e => e.claims.map (ctxOf e))

/-- The claim records emitted for a context list starting at global
ordinal `n`. -/
def emitFrom (ps : NormParams) (n : Nat) : List CtxClaim → List ClaimRec
  | [] => []
  | c :: cs => mkClaim ps n c :: emitFrom ps (n + 1) cs

/-- Φ detector output for one raw claim under the run parameters. -/
def phiIds (ps : NormParams) (c : RawClaim) : List String :=
  map_phi_hints ps.m c.text ps.hints

/-- K detector output for one raw claim (the normalizer always passes an
empty ingredient list). -/
def kIds (ps : NormParams) (c : RawClaim) : List String :=
  map_k_hints ps.m c.text [] ps.hints

/-- L detector score for one raw claim. -/
def lScore (ps : NormParams) (c : RawClaim) : Int :=
  (map_l_tokens c.text ps.hints).2

/-- One aggregate-fold step on a product record. -/
def aggStep (ps : NormParams) (pr : ProductRec) (c : RawClaim) : ProductRec :=
  updAgg pr (phiIds ps c) (kIds ps c) (lScore ps c)

/-- The aggregate fold of a claim list into a product record. -/
def aggFold (ps : NormParams) (pr : ProductRec) (cs : List RawClaim) :
    ProductRec :=
  cs.foldl (aggStep ps) pr

/-- The raw claims of the stream owned by a given asin. -/
def claimsOfAsin (a : String) (entries : List Entry) : List RawClaim :=
  entries.flatMap (fun e => if e.asin = a then e.claims else [])

theorem emitFrom_append (ps : NormParams) (n : Nat) (xs ys : List CtxClaim) :
    emitFrom ps n (xs ++ ys) = emitFrom ps n xs ++ emitFrom ps (n + xs.length) ys := by
  induction xs generalizing n with
  | nil => simp [emitFrom]
  | cons c cs ih =>
      simp [emitFrom, ih (n + 1), Nat.add_assoc, Nat.add_comm 1 cs.length]

theorem claims_foldl_stepClaim (ps : NormParams) (a pg mo ve : String) (te : ℚ)
    (cs : List RawClaim) (st : NormState) :
    (cs.foldl (stepClaim ps a pg mo ve te) st).claims =
      st.claims ++
        emitFrom ps st.claims.length (cs.map (fun c => ⟨a, pg, mo, ve, te, c⟩)) := by
  induction cs generalizing st with
  | nil => simp [emitFrom]
  | cons c cs ih =>
      have h := ih (stepClaim ps a pg mo ve te st c)
      simp only [List.foldl_cons] at *
      rw [h]
      simp [stepClaim, emitFrom, List.append_assoc]

theorem claims_stepEntry (ps : NormParams) (um : List (String × UrlMeta))
    (st : NormState) (e : Entry) :
    (stepEntry ps um st e).claims =
      st.claims ++ emitFrom ps st.claims.length (e.claims.map (ctxOf e)) := by
  unfold stepEntry
  by_cases h : hasKey st.prods e.asin
  · simp only [h, if_pos]
    exact claims_foldl_stepClaim ps e.asin e.page_sha256 e.extraction.model
      e.extraction.version e.extraction.temperature e.claims st
  · simp only [h]
    have := claims_foldl_stepClaim ps e.asin e.page_sha256 e.extraction.model
      e.extraction.version e.extraction.temperature e.claims
      ⟨st.prods ++ [(e.asin, initProduct (dlookup um e.asin) e.asin e.page_sha256)],
       st.claims⟩
    simpa using this

theorem emitFrom_length (ps : NormParams) (n : Nat) (ccs : List CtxClaim) :
    (emitFrom ps n ccs).length = ccs.length := by
  induction ccs generalizing n with
  | nil => simp [emitFrom]
  | cons c cs ih => simp [emitFrom, ih]

theorem claims_foldl_stepEntry (ps : NormParams) (um : List (String × UrlMeta))
    (entries : List Entry) (st : NormState) :
    (entries.foldl (stepEntry ps um) st).claims =
      st.claims ++ emitFrom ps st.claims.length (flatClaims entries) := by
  induction entries generalizing st with
  | nil => simp [flatClaims, emitFrom]
  | cons e rest ih =>
      simp only [List.foldl_cons]
      rw [ih (stepEntry ps um st e), claims_stepEntry ps um st e]
      simp [flatClaims, emitFrom_append, emitFrom_length, List.append_assoc]

theorem processEntries_claims (ps : NormParams) (ur : List UrlMeta)
    (entries : List Entry) :
    (processEntries ps ur entries).claims = emitFrom ps 0 (flatClaims entries) := by
  simpa using claims_foldl_stepEntry ps (buildUrlMeta ur) entries ⟨[], []⟩

theorem mem_emitFrom (ps : NormParams) (rec : ClaimRec) :
    ∀ (ccs : List CtxClaim) (n : Nat), rec ∈ emitFrom ps n ccs →
      ∃ i cc, cc ∈ ccs ∧ rec = mkClaim ps i cc := by
  intro ccs
  induction ccs with
  | nil => intro n h; simp [emitFrom] at h
  | cons c cs ih =>
      intro n h
      rw [emitFrom, List.mem_cons] at h
      rcases h with h | h
      · exact ⟨n, c, by simp, h⟩
      · obtain ⟨i, cc, hcc, hrec⟩ := ih (n + 1) h
        exact ⟨i, cc, by simp [hcc], hrec⟩

theorem emitFrom_eq_nil_iff (ps : NormParams) (n : Nat) (ccs : List CtxClaim) :
    emitFrom ps n ccs = [] ↔ ccs = [] := by
  cases ccs <;> simp [emitFrom]

/-! ### Structure of the normalizer's product fold -/

/-- The pure product-dict update performed for one claim at asin `a0`. -/
def aggUpd (ps : NormParams) (a0 : String)
    (pl : List (String × ProductRec)) (c : RawClaim) :
    List (String × ProductRec) :=
  pl.map (fun kv => if kv.1 = a0 then (kv.1, aggStep ps kv.2 c) else kv)

/-- The product insertion performed at the top of the entry loop. -/
def insertProds (um : List (String × UrlMeta))
    (st : NormState) (e : Entry) : List (String × ProductRec) :=
  if hasKey st.prods e.asin then st.prods
  else st.prods ++ [(e.asin, initProduct (dlookup um e.asin) e.asin e.page_sha256)]

theorem prods_foldl_stepClaim (ps : NormParams) (a pg mo ve : String) (te : ℚ)
    (cs : List RawClaim) (st : NormState) :
    (cs.foldl (stepClaim ps a pg mo ve te) st).prods =
      cs.foldl (aggUpd ps a) st.prods := by
  induction cs generalizing st with
  | nil => rfl
  | cons c cs ih =>
      simp only [List.foldl_cons]
      rw [ih]
      rfl

theorem prods_stepEntry (ps : NormParams) (um : List (String × UrlMeta))
    (st : NormState) (e : Entry) :
    (stepEntry ps um st e).prods = e.claims.foldl (aggUpd ps e.asin) (insertProds um st e) := by
  unfold stepEntry insertProds
  by_cases h : hasKey st.prods e.asin
  · simp only [h, if_pos]
    exact prods_foldl_stepClaim ps e.asin e.page_sha256 e.extraction.model
      e.extraction.version e.extraction.temperature e.claims st
  · simp only [h, if_neg]
    exact prods_foldl_stepClaim ps e.asin e.page_sha256 e.extraction.model
      e.extraction.version e.extraction.temperature e.claims
      ⟨st.prods ++ [(e.asin, initProduct (dlookup um e.asin) e.asin e.page_sha256)],
       st.claims⟩

theorem dlookup_aggUpd (ps : NormParams) (c : RawClaim) :
    ∀ (pl : List (String × ProductRec)) (a0 a : String),
    dlookup (aggUpd ps a0 pl c) a =
      if a = a0 then (dlookup pl a).map (fun pr => aggStep ps pr c)
      else dlookup pl a := by
  intro pl
  induction pl with
  | nil =>
      intro a0 a
      by_cases h : a = a0 <;> simp [aggUpd, dlookup, h]
  | cons kv rest ih =>
      intro a0 a
      obtain ⟨k0, v0⟩ := kv
      have hrest : aggUpd ps a0 ((k0, v0) :: rest) c =
          (if k0 = a0 then (k0, aggStep ps v0 c) else (k0, v0)) ::
            aggUpd ps a0 rest c := by
        simp [aggUpd]
      rw [hrest]
      by_cases h1 : k0 = a0
      · rw [if_pos h1]
        by_cases h2 : k0 = a
        · have ha : a = a0 := by rw [← h2, h1]
          rw [dlookup, if_pos h2, if_pos ha, dlookup, if_pos h2]
          rfl
        · have ha : ¬a = a0 := fun hc => h2 (by rw [h1, hc])
          rw [dlookup, if_neg h2, ih a0 a, if_neg ha, if_neg ha, dlookup, if_neg h2]
      · rw [if_neg h1]
        by_cases h2 : k0 = a
        · have ha : ¬a = a0 := fun hc => h1 (by rw [h2, hc])
          rw [dlookup, if_pos h2, if_neg ha, dlookup, if_pos h2]
        · rw [dlookup, if_neg h2, ih a0 a]
          by_cases h3 : a = a0
          · rw [if_pos h3, if_pos h3, dlookup, if_neg h2]
          · rw [if_neg h3, if_neg h3, dlookup, if_neg h2]

theorem dlookup_foldl_aggUpd (ps : NormParams) (a0 a : String)
    (cs : List RawClaim) (pl : List (String × ProductRec)) :
    dlookup (cs.foldl (aggUpd ps a0) pl) a =
      if a = a0 then (dlookup pl a).map (fun pr => aggFold ps pr cs)
      else dlookup pl a := by
  induction cs generalizing pl with
  | nil =>
      by_cases h : a = a0 <;> simp [aggFold, h]
  | cons c cs ih =>
      simp only [List.foldl_cons]
      rw [ih, dlookup_aggUpd]
      by_cases h : a = a0
      · simp only [h, if_pos]
        cases dlookup pl a0 <;> simp [aggFold]
      · simp [h]

theorem aggFold_append (ps : NormParams) (pr : ProductRec)
    (xs ys : List RawClaim) :
    aggFold ps pr (xs ++ ys) = aggFold ps (aggFold ps pr xs) ys := by
  simp [aggFold]

theorem claimsOfAsin_cons (a : String) (e : Entry) (rest : List Entry) :
    claimsOfAsin a (e :: rest) =
      (if e.asin = a then e.claims else []) ++ claimsOfAsin a rest := by
  simp [claimsOfAsin]

/-- Looking up an asin after the whole fold: either the asin was already
present in the state and its record gets the stream's claims folded on
top, or it was initialized from the URL metadata at some page hash and
then folded. -/
theorem lookup_foldl_stepEntry (ps : NormParams) (um : List (String × UrlMeta)) :
    ∀ (entries : List Entry) (st : NormState) (a : String) (pr' : ProductRec),
      dlookup ((entries.foldl (stepEntry ps um) st).prods) a = some pr' →
      (∃ pr, dlookup st.prods a = some pr ∧
          pr' = aggFold ps pr (claimsOfAsin a entries)) ∨
      (dlookup st.prods a = none ∧
          ∃ pg, pr' = aggFold ps (initProduct (dlookup um a) a pg)
            (claimsOfAsin a entries)) := by
  intro entries
  induction entries with
  | nil =>
      intro st a pr' h
      left
      exact ⟨pr', by simpa [dlookup] using h, by simp [claimsOfAsin, aggFold]⟩
  | cons e rest ih =>
      intro st a pr' h
      simp only [List.foldl_cons] at h
      have hstep := ih (stepEntry ps um st e) a pr' h
      have hprods := prods_stepEntry ps um st e
      by_cases ha : e.asin = a
      · -- the entry owns the asin in question
        subst ha
        rcases hstep with ⟨pr1, hpr1, hfold⟩ | ⟨hnone, pg, hfold⟩
        · -- the asin has a record after this entry (always the case)
          rw [hprods, dlookup_foldl_aggUpd, if_pos rfl] at hpr1
          unfold insertProds at hpr1
          by_cases hk : hasKey st.prods e.asin
          · -- already present before the entry
            obtain ⟨pr0, hpr0⟩ := Option.isSome_iff_exists.mp
              ((hasKey_iff_lookup_isSome st.prods e.asin).mp hk)
            rw [if_pos hk, hpr0] at hpr1
            left
            refine ⟨pr0, hpr0, ?_⟩
            simp only [Option.map_some', Option.some.injEq] at hpr1
            rw [hfold, ← hpr1, claimsOfAsin_cons, if_pos rfl, aggFold_append]
          · -- first encounter: initialized from URL metadata
            have hnone0 : dlookup st.prods e.asin = none := by
              cases hcase : dlookup st.prods e.asin with
              | none => rfl
              | some v =>
                  exact absurd ((hasKey_iff_lookup_isSome st.prods e.asin).mpr
                    (by simp [hcase])) hk
            rw [if_neg hk, dlookup_append, hnone0] at hpr1
            simp only [dlookup, if_pos rfl, ite_true, Option.map_some',
              Option.some.injEq] at hpr1
            right
            refine ⟨hnone0, e.page_sha256, ?_⟩
            rw [hfold, ← hpr1, claimsOfAsin_cons, if_pos rfl, aggFold_append]
        · -- contradiction: after its own entry the asin is present
          exfalso
          rw [hprods, dlookup_foldl_aggUpd, if_pos rfl] at hnone
          unfold insertProds at hnone
          by_cases hk : hasKey st.prods e.asin
          · rw [if_pos hk] at hnone
            have := (hasKey_iff_lookup_isSome st.prods e.asin).mp hk
            cases hcase : dlookup st.prods e.asin with
            | none => rw [hcase] at this; simp at this
            | some v => rw [hcase] at hnone; simp at hnone
          · rw [if_neg hk, dlookup_append] at hnone
            cases hcase : dlookup st.prods e.asin with
            | none =>
                rw [hcase] at hnone
                simp [dlookup] at hnone
            | some v =>
                rw [hcase] at hnone
                simp at hnone
      · -- the entry concerns another asin: nothing changes for `a`
        have hkeep : dlookup (stepEntry ps um st e).prods a = dlookup st.prods a := by
          rw [hprods, dlookup_foldl_aggUpd, if_neg (fun hc => ha hc.symm)]
          unfold insertProds
          by_cases hk : hasKey st.prods e.asin
          · rw [if_pos hk]
          · rw [if_neg hk, dlookup_append]
            cases hcase : dlookup st.prods a with
            | none => simp [dlookup, ha]
            | some v => simp
        rw [claimsOfAsin_cons, if_neg ha]
        simpa [hkeep] using hstep

theorem aggFold_phi (ps : NormParams) (cs : List RawClaim) :
    ∀ (pr : ProductRec), (aggFold ps pr cs).phi_any_candidate =
      (pr.phi_any_candidate || cs.any (fun c => !(phiIds ps c).isEmpty)) := by
  induction cs with
  | nil => intro pr; simp [aggFold]
  | cons c cs ih =>
      intro pr
      have : aggFold ps pr (c :: cs) = aggFold ps (aggStep ps pr c) cs := rfl
      rw [this, ih]
      by_cases h : phiIds ps c = [] <;>
        simp [aggStep, updAgg, h, Bool.or_assoc]

theorem aggFold_k (ps : NormParams) (cs : List RawClaim) :
    ∀ (pr : ProductRec), (aggFold ps pr cs).k_any_candidate =
      (pr.k_any_candidate || cs.any (fun c => !(kIds ps c).isEmpty)) := by
  induction cs with
  | nil => intro pr; simp [aggFold]
  | cons c cs ih =>
      intro pr
      have : aggFold ps pr (c :: cs) = aggFold ps (aggStep ps pr c) cs := rfl
      rw [this, ih]
      by_cases h : kIds ps c = [] <;>
        simp [aggStep, updAgg, h, Bool.or_assoc]

theorem aggFold_lmax (ps : NormParams) (cs : List RawClaim) :
    ∀ (pr : ProductRec), (aggFold ps pr cs).l_max_token_score =
      cs.foldl (fun m c => max m (lScore ps c)) pr.l_max_token_score := by
  induction cs with
  | nil => intro pr; simp [aggFold]
  | cons c cs ih =>
      intro pr
      have : aggFold ps pr (c :: cs) = aggFold ps (aggStep ps pr c) cs := rfl
      rw [this, ih]
      rfl

/-! ### Small facts about `foldl max` over the integers -/

theorem le_foldl_max (l : List Int) (a : Int) : a ≤ l.foldl max a := by
  induction l generalizing a with
  | nil => simp
  | cons x xs ih => exact le_trans (le_max_left a x) (ih (max a x))

theorem mem_le_foldl_max (l : List Int) (a : Int) :
    ∀ x ∈ l, x ≤ l.foldl max a := by
  induction l generalizing a with
  | nil => simp
  | cons y ys ih =>
      intro x hx
      rcases List.mem_cons.mp hx with h | h
      · subst h
        exact le_trans (le_max_right a x) (le_foldl_max ys (max a x))
      · exact ih (max a y) x h

theorem foldl_max_attained (l : List Int) (a : Int) :
    l.foldl max a = a ∨ ∃ x ∈ l, l.foldl max a = x := by
  induction l generalizing a with
  | nil => left; rfl
  | cons x xs ih =>
      rcases ih (max a x) with h | ⟨y, hy, h⟩
      · rcases max_choice a x with hm | hm
        · left; simpa [hm] using h
        · right; exact ⟨x, by simp, by simpa [hm] using h⟩
      · right; exact ⟨y, by simp [hy], h⟩

/-- With only nonnegative configured weights, an L score is
nonnegative. -/
theorem lScore_nonneg (ps : NormParams) (c : RawClaim)
    (hw : ∀ tw ∈ ps.hints.l, (0 : Int) ≤ tw.2) : 0 ≤ lScore ps c := by
  have aux : ∀ (l : List (String × Int)) (acc : List String × Int),
      (∀ tw ∈ l, (0 : Int) ≤ tw.2) →
      acc.2 ≤ (l.foldl (fun acc tw =>
        if occursIn tw.1 c.text then (acc.1 ++ [tw.1], acc.2 + tw.2)
        else acc) acc).2 := by
    intro l
    induction l with
    | nil => intro acc _; simp
    | cons tw tws ih =>
        intro acc hl
        simp only [List.foldl_cons]
        by_cases h : occursIn tw.1 c.text
        · refine le_trans ?_ (ih _ (fun x hx => hl x (by simp [hx])))
          have h0 : (0 : Int) ≤ tw.2 := hl tw (by simp)
          simp only [h, if_pos]
          omega
        · simp only [h, if_neg, ite_false]
          exact ih acc (fun x hx => hl x (by simp [hx]))
  simpa [lScore, map_l_tokens] using aux ps.hints.l ([], 0) hw

/-! ### Nonemptiness of the product dict along the fold -/

theorem aggUpd_length (ps : NormParams) (a0 : String)
    (pl : List (String × ProductRec)) (c : RawClaim) :
    (aggUpd ps a0 pl c).length = pl.length := by
  simp [aggUpd]

theorem foldl_aggUpd_length (ps : NormParams) (a0 : String)
    (cs : List RawClaim) (pl : List (String × ProductRec)) :
    (cs.foldl (aggUpd ps a0) pl).length = pl.length := by
  induction cs generalizing pl with
  | nil => rfl
  | cons c cs ih => simp only [List.foldl_cons]; rw [ih, aggUpd_length]

theorem stepEntry_prods_length_pos (ps : NormParams)
    (um : List (String × UrlMeta)) (st : NormState) (e : Entry) :
    0 < (stepEntry ps um st e).prods.length := by
  rw [prods_stepEntry, foldl_aggUpd_length]
  unfold insertProds
  by_cases hk : hasKey st.prods e.asin
  · rw [if_pos hk]
    obtain ⟨kv, hkv, _⟩ := List.any_eq_true.mp hk
    exact List.length_pos_of_mem hkv
  · rw [if_neg hk]
    simp

theorem processEntries_prods_ne_nil (ps : NormParams) (ur : List UrlMeta)
    (entries : List Entry) (h : entries ≠ []) :
    (processEntries ps ur entries).prods ≠ [] := by
  cases entries with
  | nil => exact absurd rfl h
  | cons e rest =>
      unfold processEntries
      simp only [List.foldl_cons]
      have aux : ∀ (l : List Entry) (st : NormState), 0 < st.prods.length →
          0 < (l.foldl (stepEntry ps (buildUrlMeta ur)) st).prods.length := by
        intro l
        induction l with
        | nil => intro st hst; exact hst
        | cons e2 rest2 ih =>
            intro st _
            exact ih _ (stepEntry_prods_length_pos ps (buildUrlMeta ur) st e2)
      have := aux rest (stepEntry ps (buildUrlMeta ur) ⟨[], []⟩ e)
        (stepEntry_prods_length_pos ps (buildUrlMeta ur) ⟨[], []⟩ e)
      intro hc
      rw [hc] at this
      simp at this

theorem flatClaims_eq_nil_iff (entries : List Entry) :
    flatClaims entries = [] ↔ ∀ e ∈ entries, e.claims = [] := by
  simp [flatClaims, List.flatMap_eq_nil_iff, List.map_eq_nil_iff]

/-! ### Validator lemmas -/

theorem violRows_eq_nil_iff (rows : List QcRow) :
    ∀ n, violRows n rows = [] ↔
      ∀ r ∈ rows, r.extraction_temperature.getD 0 = 0 := by
  induction rows with
  | nil => intro n; simp [violRows]
  | cons r rest ih =>
      intro n
      simp only [violRows, List.forall_mem_cons]
      by_cases h : r.extraction_temperature.getD 0 = 0
      · simp [h, ih (n + 1)]
      · simp [h, ih (n + 1)]

theorem mem_violRows_fst (rows : List QcRow) :
    ∀ (n j : Nat), j ∈ (violRows n rows).map Prod.fst ↔
      ∃ k r, rows.get? k = some r ∧ j = n + k ∧
        r.extraction_temperature.getD 0 ≠ 0 := by
  induction rows with
  | nil => intro n j; simp [violRows]
  | cons r rest ih =>
      intro n j
      simp only [violRows]
      by_cases h : r.extraction_temperature.getD 0 = 0
      · rw [if_neg (by simpa using h)]
        simp only [List.nil_append]
        rw [ih (n + 1) j]
        constructor
        · rintro ⟨k, r', hget, hj, hcond⟩
          exact ⟨k + 1, r', by simpa using hget, by omega, hcond⟩
        · rintro ⟨k, r', hget, hj, hcond⟩
          cases k with
          | zero =>
              exfalso
              simp only [List.get?_cons_zero, Option.some.injEq] at hget
              rw [← hget] at hcond
              exact hcond h
          | succ k =>
              exact ⟨k, r', by simpa using hget, by omega, hcond⟩
      · rw [if_pos (by simpa using h)]
        simp only [List.cons_append, List.nil_append, List.map_cons, List.mem_cons]
        rw [ih (n + 1) j]
        constructor
        · rintro (hj | ⟨k, r', hget, hj, hcond⟩)
          · exact ⟨0, r, by simp, by omega, by simpa using h⟩
          · exact ⟨k + 1, r', by simpa using hget, by omega, hcond⟩
        · rintro ⟨k, r', hget, hj, hcond⟩
          cases k with
          | zero => left; omega
          | succ k =>
              right
              exact ⟨k, r', by simpa using hget, by omega, hcond⟩

/-! ### The single-pass form of the validator's coercion convention -/

/-- The per-field coercion of `validate_csv`, written as one case split:
empty values become null, the literals `"true"`/`"false"` become
booleans before any numeric coercion, `_score`-suffixed fields coerce to
integers when the value parses, `_weight`/`price`-suffixed fields coerce
to floats when the value parses, everything else stays a string. -/
def coerceSpec (parseI : String → Option Int) (parseF : String → Option ℚ)
    (k v : String) : PyVal :=
  if v = "" then .vnone
  else if v = "true" then
    (if endsWithStr k "_score" then .int 1
     else if endsWithStr k "_weight" || endsWithStr k "price" then .float 1
     else .bool true)
  else if v = "false" then .bool false
  else if endsWithStr k "_score" then
    (match parseI v with
     | some n => .int n
     | none => .str v)
  else if endsWithStr k "_weight" || endsWithStr k "price" then
    (match parseF v with
     | some q => .float q
     | none => .str v)
  else .str v

theorem cleanValue_eq_coerceSpec (parseI : String → Option Int)
    (parseF : String → Option ℚ) (k v : String) :
    numCoerce parseI parseF k (boolCoerce (emptyToNone v)) =
      coerceSpec parseI parseF k v := by
  by_cases h0 : v = ""
  · simp [h0, emptyToNone, boolCoerce, numCoerce, pyTruthy, coerceSpec]
  · by_cases hT : v = "true"
    · subst hT
      simp only [emptyToNone, if_neg h0, boolCoerce, if_pos rfl]
      simp only [numCoerce, pyTruthy, coerceSpec, if_neg h0]
      by_cases hs : endsWithStr k "_score"
      · simp [hs, pyIntCoerce]
      · by_cases hw : endsWithStr k "_weight" || endsWithStr k "price"
        · simp [hs, hw, pyFloatCoerce]
        · simp [hs, hw]
    · by_cases hF : v = "false"
      · subst hF
        simp [emptyToNone, boolCoerce, numCoerce, pyTruthy, coerceSpec]
      · have hbc : boolCoerce (emptyToNone v) = .str v := by
          simp [emptyToNone, h0, boolCoerce, hT, hF]
        rw [hbc]
        simp only [numCoerce, pyTruthy, coerceSpec, if_neg h0, if_neg hT, if_neg hF]
        rw [if_pos (by simpa using h0)]
        by_cases hs : endsWithStr k "_score"
        · simp only [hs, if_pos]
          cases hp : parseI v <;> simp [pyIntCoerce, hp]
        · by_cases hw : endsWithStr k "_weight" || endsWithStr k "price"
          · simp only [hs, ite_false, hw, if_pos]
            cases hp : parseF v <;> simp [pyFloatCoerce, hp]
          · simp [hs, hw]

/-! ### Weight-estimator lemmas -/

theorem dlookup_dictUpdate_self {α : Type} (d : List (String × α))
    (k : String) (v : α) : dlookup (dictUpdate d k v) k = some v := by
  induction d with
  | nil => simp [dictUpdate, dlookup]
  | cons kv rest ih =>
      by_cases h : kv.1 = k
      · obtain ⟨k0, w⟩ := kv
        simp only at h
        simp [dictUpdate, h, dlookup]
      · obtain ⟨k0, w⟩ := kv
        simp only at h
        simp [dictUpdate, h, dlookup, ih]

theorem dlookup_dictUpdate_isSome {α : Type} (d : List (String × α))
    (key a : String) (v : α) :
    (dlookup (dictUpdate d key v) a).isSome ↔
      a = key ∨ (dlookup d a).isSome := by
  by_cases h : a = key
  · subst h
    simp [dlookup_dictUpdate_self]
  · rw [dlookup_dictUpdate_ne d key a v h]
    simp [h]

theorem dlookup_wfold_not_mem (g : CsvRow → ℚ) :
    ∀ (l : List CsvRow) (d : List (String × ℚ)) (a : String),
      a ∉ l.map asinKey →
      dlookup (l.foldl (fun w p => dictUpdate w (asinKey p) (g p)) d) a =
        dlookup d a := by
  intro l
  induction l with
  | nil => intro d a _; rfl
  | cons p rest ih =>
      intro d a ha
      simp only [List.map_cons, List.mem_cons] at ha
      push_neg at ha
      simp only [List.foldl_cons]
      rw [ih _ a ha.2, dlookup_dictUpdate_ne _ _ _ _ ha.1]

theorem dlookup_wfold_mem (g : CsvRow → ℚ) :
    ∀ (l : List CsvRow) (d : List (String × ℚ)) (p : CsvRow),
      p ∈ l → (l.map asinKey).Nodup →
      dlookup (l.foldl (fun w q => dictUpdate w (asinKey q) (g q)) d)
        (asinKey p) = some (g p) := by
  intro l
  induction l with
  | nil => intro d p hp _; simp at hp
  | cons q rest ih =>
      intro d p hp hnd
      simp only [List.map_cons, List.nodup_cons] at hnd
      simp only [List.foldl_cons]
      rcases List.mem_cons.mp hp with h | h
      · subst h
        rw [dlookup_wfold_not_mem g rest _ (asinKey p) hnd.1,
          dlookup_dictUpdate_self]
      · exact ih _ p h hnd.2

theorem dlookup_wfold_isSome (g : CsvRow → ℚ) :
    ∀ (l : List CsvRow) (d : List (String × ℚ)) (a : String),
      (dlookup (l.foldl (fun w p => dictUpdate w (asinKey p) (g p)) d) a).isSome →
      a ∈ l.map asinKey ∨ (dlookup d a).isSome := by
  intro l
  induction l with
  | nil => intro d a h; right; exact h
  | cons p rest ih =>
      intro d a h
      simp only [List.foldl_cons] at h
      rcases ih _ a h with hmem | hsome
      · left; simp [hmem]
      · rcases (dlookup_dictUpdate_isSome d (asinKey p) a (g p)).mp hsome with
          heq | hsome2
        · left; simp [heq]
        · right; exact hsome2

theorem dictUpdate_keys {α : Type} (d : List (String × α)) (k : String) (v : α)
    (h : hasKey d k = true) :
    (dictUpdate d k v).map Prod.fst = d.map Prod.fst := by
  induction d with
  | nil => simp [hasKey] at h
  | cons kv rest ih =>
      obtain ⟨k0, w⟩ := kv
      by_cases hk : k0 = k
      · simp [dictUpdate, hk]
      · simp only [hasKey, List.any_cons] at h
        rcases Bool.or_eq_true_iff.mp h with h1 | h2
        · exact absurd (by simpa using h1) hk
        · simp [dictUpdate, hk, ih h2]

/-! ### Concrete fixtures for witness evaluation -/

/-- A concrete matcher: a pattern "matches" when it occurs
case-insensitively in the text (a regex-free regular pattern). -/
def matcherTest : String → String → Bool := fun pat text => occursIn pat text

/-- A small hints configuration exercising all three detectors. -/
def hintsTest : HintConf :=
  { phi := [("phi_impossible", ["miracle"])]
    k := [("k_regulatory", ["fda"])]
    l := [("proven", 2), ("clinically", 2)] }

/-- Concrete normalizer parameters for evaluation. -/
def psTest : NormParams :=
  { m := matcherTest
    hints := hintsTest
    sha := fun s => "sha256:" ++ s
    fmtQ := fun q => toString q.num ++ "/" ++ toString q.den }

/-- One raw claim carrying a confidence below the review threshold. -/
def claimTest : RawClaim :=
  { text := "Clinically proven to improve sleep quality"
    confidence := some (7 / 10) }

/-- One JSONL entry with a single claim. -/
def entryTest : Entry :=
  { asin := "B0TEST"
    page_sha256 := "pagehash"
    extraction := { model := "rule", version := "1", temperature := 0 }
    claims := [claimTest] }

/-- One JSONL entry with an empty claim list. -/
def entryNoClaims : Entry :=
  { asin := "B0EMPTY"
    page_sha256 := "pagehash2"
    extraction := { model := "rule", version := "1", temperature := 0 }
    claims := [] }

/-! ### Claim theorems -/

/-- C1: for every matcher, claim text, ingredient list and hint
configuration, the resolved gate hint follows the fixed priority
exactly — `k_candidate` when the K id list is non-empty, else
`phi_candidate` when the Φ id list is non-empty, else `l_hard` when the
L score is at least 3, else `l_soft` when it is positive, else `none`;
in particular a non-empty K match always yields `k_candidate`. -/
theorem gate_hint_priority (m : String → String → Bool) (text : String)
    (ings : List String) (hints : HintConf) :
    compute_gate_hint (map_phi_hints m text hints)
        (map_k_hints m text ings hints) (map_l_tokens text hints).2 =
      (if map_k_hints m text ings hints ≠ [] then "k_candidate"
       else if map_phi_hints m text hints ≠ [] then "phi_candidate"
       else if 3 ≤ (map_l_tokens text hints).2 then "l_hard"
       else if 0 < (map_l_tokens text hints).2 then "l_soft"
       else "none") ∧
    (map_k_hints m text ings hints ≠ [] →
      compute_gate_hint (map_phi_hints m text hints)
        (map_k_hints m text ings hints) (map_l_tokens text hints).2 =
          "k_candidate") := by
  refine ⟨rfl, fun hk => ?_⟩
  simp [compute_gate_hint, hk]

/-- Witness for C1: a text matching both a K pattern and L tokens with
score 4 ≥ 3 resolves to `k_candidate`, not `l_hard`. -/
theorem gate_hint_priority_witness :
    compute_gate_hint
        (map_phi_hints matcherTest "FDA clinically proven remedy" hintsTest)
        (map_k_hints matcherTest "FDA clinically proven remedy" [] hintsTest)
        (map_l_tokens "FDA clinically proven remedy" hintsTest).2 =
      "k_candidate" :=
  (gate_hint_priority matcherTest "FDA clinically proven remedy" [] hintsTest).2
    (by decide)

/-- C2: two normalizer runs on the identical entry stream, identical
URL-metadata table and identical hint configuration (and identical
external functions) produce byte-identical serialized product and claim
tables. -/
theorem normalizer_run_deterministic (ps : NormParams) (ur : List UrlMeta)
    (entries : List Entry) (out1 out2 : Option String × Option String × Bool)
    (h1 : out1 = normalizeMain ps ur entries)
    (h2 : out2 = normalizeMain ps ur entries) : out1 = out2 :=
  h1.trans h2.symm

/-- Witness for C2 on a concrete run. -/
theorem normalizer_run_deterministic_witness :
    normalizeMain psTest [] [entryTest] = normalizeMain psTest [] [entryTest] :=
  normalizer_run_deterministic psTest [] [entryTest]
    (normalizeMain psTest [] [entryTest]) (normalizeMain psTest [] [entryTest])
    rfl rfl

/-- C4: every claim record emitted by the normalizer carries as
`claim_sha256` exactly the digest of its verbatim claim text. -/
theorem claim_hash_matches_text (ps : NormParams) (ur : List UrlMeta)
    (entries : List Entry) (rec : ClaimRec)
    (h : rec ∈ (processEntries ps ur entries).claims) :
    rec.claim_sha256 = ps.sha rec.claim_text_verbatim := by
  rw [processEntries_claims] at h
  obtain ⟨i, cc, _, hrec⟩ := mem_emitFrom ps rec (flatClaims entries) 0 h
  subst hrec
  rfl

/-- Witness for C4 on a concrete run. -/
theorem claim_hash_matches_text_witness :
    (mkClaim psTest 0 (ctxOf entryTest claimTest)).claim_sha256 =
      psTest.sha (mkClaim psTest 0 (ctxOf entryTest claimTest)).claim_text_verbatim :=
  claim_hash_matches_text psTest [] [entryTest]
    (mkClaim psTest 0 (ctxOf entryTest claimTest))
    (by rw [processEntries_claims]; exact List.Mem.head _)

/-- C9: every emitted claim record has `review_needed` true exactly when
its source confidence (defaulting to 1.0 when absent) is below 0.8,
while `extract_confidence` records the source confidence with default
0.9; in particular a claim with no confidence value is never marked for
review. -/
theorem review_needed_rule (ps : NormParams) (ur : List UrlMeta)
    (entries : List Entry) (rec : ClaimRec)
    (h : rec ∈ (processEntries ps ur entries).claims) :
    ∃ cc ∈ flatClaims entries,
      rec.claim_text_verbatim = cc.claim.text ∧
      (rec.review_needed = true ↔ cc.claim.confidence.getD 1 < 4 / 5) ∧
      rec.extract_confidence = cc.claim.confidence.getD (9 / 10) ∧
      (cc.claim.confidence = none → rec.review_needed = false) := by
  rw [processEntries_claims] at h
  obtain ⟨i, cc, hcc, hrec⟩ := mem_emitFrom ps rec (flatClaims entries) 0 h
  subst hrec
  refine ⟨cc, hcc, rfl, ?_, rfl, ?_⟩
  · simp [mkClaim]
  · intro hc
    simp [mkClaim, hc]
    norm_num

/-- Witness for C9 on a concrete run (confidence 0.7 < 0.8). -/
theorem review_needed_rule_witness :
    ∃ cc ∈ flatClaims [entryTest],
      (mkClaim psTest 0 (ctxOf entryTest claimTest)).claim_text_verbatim =
        cc.claim.text ∧
      ((mkClaim psTest 0 (ctxOf entryTest claimTest)).review_needed = true ↔
        cc.claim.confidence.getD 1 < 4 / 5) ∧
      (mkClaim psTest 0 (ctxOf entryTest claimTest)).extract_confidence =
        cc.claim.confidence.getD (9 / 10) ∧
      (cc.claim.confidence = none →
        (mkClaim psTest 0 (ctxOf entryTest claimTest)).review_needed = false) :=
  review_needed_rule psTest [] [entryTest]
    (mkClaim psTest 0 (ctxOf entryTest claimTest))
    (by rw [processEntries_claims]; exact List.Mem.head _)

/-- C10: a normalizer run over an empty entry stream fails with an
index error writing the product table (no table is produced); a run over
a nonempty stream whose entries all carry empty claim lists writes the
product table but fails with an index error before the claims table is
produced. -/
theorem empty_stream_write_error (ps : NormParams) (ur : List UrlMeta)
    (entries : List Entry) :
    (entries = [] → normalizeMain ps ur entries = (none, none, true)) ∧
    (entries ≠ [] → (∀ e ∈ entries, e.claims = []) →
      ∃ s, normalizeMain ps ur entries = (some s, none, true)) := by
  constructor
  · rintro rfl
    rfl
  · intro hne hcl
    have hprods := processEntries_prods_ne_nil ps ur entries hne
    have hclaims : (processEntries ps ur entries).claims = [] := by
      rw [processEntries_claims, emitFrom_eq_nil_iff]
      exact (flatClaims_eq_nil_iff entries).mpr hcl
    obtain ⟨p, pl, hp⟩ := List.exists_cons_of_ne_nil hprods
    refine ⟨serializeProducts (p :: pl), ?_⟩
    unfold normalizeMain writePhase
    rw [hp, hclaims]

/-- Witness for C10: both failure modes at concrete inputs. -/
theorem empty_stream_write_error_witness :
    normalizeMain psTest [] [] = (none, none, true) ∧
    ∃ s, normalizeMain psTest [] [entryNoClaims] = (some s, none, true) :=
  ⟨(empty_stream_write_error psTest [] []).1 rfl,
   (empty_stream_write_error psTest [] [entryNoClaims]).2 (by decide) (by decide)⟩

/-- C3 (amended): after the normalizer's single pass, a product
record's `phi_any_candidate` (resp. `k_any_candidate`) is true exactly
when some claim of that asin has a non-empty Φ (resp. K) hint-id list,
and `l_max_token_score` is the maximum of 0 and the asin's claims' L
token scores: it is nonnegative, an upper bound of the claims' scores,
attained by a claim's score unless it is 0, and 0 when the asin has no
claims. -/
theorem product_aggregates (ps : NormParams) (ur : List UrlMeta)
    (entries : List Entry) (a : String) (pr : ProductRec)
    (h : dlookup (processEntries ps ur entries).prods a = some pr) :
    (pr.phi_any_candidate = true ↔
      ∃ c ∈ claimsOfAsin a entries, phiIds ps c ≠ []) ∧
    (pr.k_any_candidate = true ↔
      ∃ c ∈ claimsOfAsin a entries, kIds ps c ≠ []) ∧
    (claimsOfAsin a entries = [] → pr.l_max_token_score = 0) ∧
    (0 ≤ pr.l_max_token_score) ∧
    (∀ c ∈ claimsOfAsin a entries, lScore ps c ≤ pr.l_max_token_score) ∧
    (pr.l_max_token_score = 0 ∨
      ∃ c ∈ claimsOfAsin a entries, pr.l_max_token_score = lScore ps c) := by
  have h' : dlookup
      ((entries.foldl (stepEntry ps (buildUrlMeta ur)) ⟨[], []⟩).prods) a = some pr := h
  rcases lookup_foldl_stepEntry ps (buildUrlMeta ur) entries ⟨[], []⟩ a pr h' with
    ⟨pr0, hpr0, _⟩ | ⟨_, pg, hfold⟩
  · simp [dlookup] at hpr0
  · have hinit_phi :
        (initProduct (dlookup (buildUrlMeta ur) a) a pg).phi_any_candidate = false := rfl
    have hinit_k :
        (initProduct (dlookup (buildUrlMeta ur) a) a pg).k_any_candidate = false := rfl
    have hinit_l :
        (initProduct (dlookup (buildUrlMeta ur) a) a pg).l_max_token_score = 0 := rfl
    have hphi : pr.phi_any_candidate =
        (claimsOfAsin a entries).any (fun c => !(phiIds ps c).isEmpty) := by
      rw [hfold, aggFold_phi, hinit_phi, Bool.false_or]
    have hk : pr.k_any_candidate =
        (claimsOfAsin a entries).any (fun c => !(kIds ps c).isEmpty) := by
      rw [hfold, aggFold_k, hinit_k, Bool.false_or]
    have hl : pr.l_max_token_score =
        ((claimsOfAsin a entries).map (lScore ps)).foldl max 0 := by
      rw [hfold, aggFold_lmax, hinit_l, List.foldl_map]
    refine ⟨?_, ?_, ?_, ?_, ?_, ?_⟩
    · rw [hphi]
      simp [List.any_eq_true, List.isEmpty_iff]
    · rw [hk]
      simp [List.any_eq_true, List.isEmpty_iff]
    · intro hnil
      rw [hl, hnil]
      rfl
    · rw [hl]
      exact le_foldl_max _ 0
    · intro c hc
      rw [hl]
      exact mem_le_foldl_max _ 0 (lScore ps c) (List.mem_map_of_mem _ hc)
    · rcases foldl_max_attained ((claimsOfAsin a entries).map (lScore ps)) 0 with
        h0 | ⟨x, hx, hx2⟩
      · left
        rw [hl, h0]
      · right
        obtain ⟨c, hc, hcx⟩ := List.mem_map.mp hx
        exact ⟨c, hc, by rw [hl, hx2, hcx]⟩

/-- An L configuration carrying a negative token weight. -/
def hintsNeg : HintConf :=
  { phi := []
    k := []
    l := [("bad", -1)] }

/-- Normalizer parameters over the negative-weight configuration. -/
def psNeg : NormParams :=
  { m := fun _ _ => false
    hints := hintsNeg
    sha := fun s => s
    fmtQ := fun _ => "" }

/-- A claim whose text matches the negative-weight token. -/
def claimNeg : RawClaim := { text := "bad result" }

/-- An entry holding only the negative-score claim. -/
def entryNeg : Entry :=
  { asin := "B0NEG"
    page_sha256 := "pgneg"
    extraction := { model := "m", version := "v", temperature := 0 }
    claims := [claimNeg] }

/-- C3 counterexample: for an asin whose single claim has L token score
−1, the stored `l_max_token_score` is 0 — it does not equal the maximum
of that asin's claims' L token scores, refuting the claim as stated. -/
theorem product_aggregates_counterexample :
    dlookup (processEntries psNeg [] [entryNeg]).prods "B0NEG" =
      some (initProduct none "B0NEG" "pgneg") ∧
    claimsOfAsin "B0NEG" [entryNeg] = [claimNeg] ∧
    lScore psNeg claimNeg = -1 ∧
    (initProduct none "B0NEG" "pgneg").l_max_token_score = 0 ∧
    (initProduct none "B0NEG" "pgneg").l_max_token_score ≠
      lScore psNeg claimNeg := by
  refine ⟨by decide, by decide, by decide, by decide, by decide⟩

/-- Witness for C3 (amended): a concrete stream with one product and
one claim whose L score is 4 and whose Φ/K detectors are empty. -/
theorem product_aggregates_witness :
    ((({ initProduct none "B0TEST" "pagehash" with
          l_max_token_score := 4 } : ProductRec).phi_any_candidate = true ↔
      ∃ c ∈ claimsOfAsin "B0TEST" [entryTest], phiIds psTest c ≠ []) ∧
     (({ initProduct none "B0TEST" "pagehash" with
          l_max_token_score := 4 } : ProductRec).k_any_candidate = true ↔
      ∃ c ∈ claimsOfAsin "B0TEST" [entryTest], kIds psTest c ≠ []) ∧
     (claimsOfAsin "B0TEST" [entryTest] = [] →
      ({ initProduct none "B0TEST" "pagehash" with
          l_max_token_score := 4 } : ProductRec).l_max_token_score = 0) ∧
     ((0 : Int) ≤ ({ initProduct none "B0TEST" "pagehash" with
          l_max_token_score := 4 } : ProductRec).l_max_token_score) ∧
     (∀ c ∈ claimsOfAsin "B0TEST" [entryTest], lScore psTest c ≤
      ({ initProduct none "B0TEST" "pagehash" with
          l_max_token_score := 4 } : ProductRec).l_max_token_score) ∧
     (({ initProduct none "B0TEST" "pagehash" with
          l_max_token_score := 4 } : ProductRec).l_max_token_score = 0 ∨
      ∃ c ∈ claimsOfAsin "B0TEST" [entryTest],
        ({ initProduct none "B0TEST" "pagehash" with
            l_max_token_score := 4 } : ProductRec).l_max_token_score =
          lScore psTest c)) :=
  product_aggregates psTest [] [entryTest] "B0TEST"
    { initProduct none "B0TEST" "pagehash" with l_max_token_score := 4 }
    (by decide)

/-! ### Validator claims -/

/-- C5: the temperature check fails exactly when some claims-table row
has a temperature other than 0 (an absent field counting as 0); the
reported indices are exactly the 1-based positions of the violating
rows; and any single violation makes the validator's overall result
nonzero. -/
theorem temperature_check_exact (rows : List QcRow) :
    ((check_extraction_temperature rows).1 = false ↔
      ∃ r ∈ rows, r.extraction_temperature.getD 0 ≠ 0) ∧
    (∀ i : Nat, i ∈ (check_extraction_temperature rows).2.map Prod.fst ↔
      (1 ≤ i ∧ ∃ r, rows.get? (i - 1) = some r ∧
        r.extraction_temperature.getD 0 ≠ 0)) ∧
    (∀ pp cp : Bool,
      (∃ r ∈ rows, r.extraction_temperature.getD 0 ≠ 0) →
      qcMain pp cp rows = 1) := by
  have hpass : (check_extraction_temperature rows).1 = (violRows 1 rows).isEmpty := rfl
  have herrs : (check_extraction_temperature rows).2 = violRows 1 rows := rfl
  refine ⟨?_, ?_, ?_⟩
  · rw [hpass]
    constructor
    · intro hf
      by_contra hno
      push_neg at hno
      rw [(violRows_eq_nil_iff rows 1).mpr hno] at hf
      simp at hf
    · rintro ⟨r, hr, hne⟩
      cases hemp : (violRows 1 rows).isEmpty
      · rfl
      · exact absurd ((violRows_eq_nil_iff rows 1).mp
          (List.isEmpty_iff.mp hemp) r hr) hne
  · intro i
    rw [herrs, mem_violRows_fst rows 1 i]
    constructor
    · rintro ⟨k, r, hget, hj, hcond⟩
      exact ⟨by omega, r, by rw [show i - 1 = k by omega]; exact hget, hcond⟩
    · rintro ⟨h1, r, hget, hcond⟩
      exact ⟨i - 1, r, hget, by omega, hcond⟩
  · intro pp cp hex
    have hf : (violRows 1 rows).isEmpty = false := by
      cases hemp : (violRows 1 rows).isEmpty
      · rfl
      · obtain ⟨r, hr, hne⟩ := hex
        exact absurd ((violRows_eq_nil_iff rows 1).mp
          (List.isEmpty_iff.mp hemp) r hr) hne
    simp [qcMain, check_extraction_temperature, hf]

/-- A clean row and a row at temperature 0.7 for the validator
witness. -/
def qcRow0 : QcRow :=
  { extraction_temperature := some 0
    page_sha256 := some "p1"
    claim_sha256 := some "c1" }

/-- A violating claims-table row (temperature 0.7). -/
def qcRowBad : QcRow :=
  { extraction_temperature := some (7 / 10)
    page_sha256 := some "p2"
    claim_sha256 := some "c2" }

/-- A two-row claims table whose second row violates determinism. -/
def qcRowsTest : List QcRow := [qcRow0, qcRowBad]

/-- Witness for C5: with one row at temperature 0.7, the check fails,
row 2 is reported, row 1 is not, and the validator exits nonzero. -/
theorem temperature_check_exact_witness :
    (check_extraction_temperature qcRowsTest).1 = false ∧
    2 ∈ (check_extraction_temperature qcRowsTest).2.map Prod.fst ∧
    1 ∉ (check_extraction_temperature qcRowsTest).2.map Prod.fst ∧
    qcMain true true qcRowsTest = 1 := by
  have hbad : qcRowBad.extraction_temperature.getD 0 ≠ 0 := by
    norm_num [qcRowBad]
  refine ⟨(temperature_check_exact qcRowsTest).1.mpr
      ⟨qcRowBad, by exact List.Mem.tail _ (List.Mem.head _), hbad⟩,
    ((temperature_check_exact qcRowsTest).2.1 2).mpr
      ⟨by omega, qcRowBad, rfl, hbad⟩,
    fun hmem => ?_,
    (temperature_check_exact qcRowsTest).2.2 true true
      ⟨qcRowBad, by exact List.Mem.tail _ (List.Mem.head _), hbad⟩⟩
  obtain ⟨-, r, hget, hcond⟩ := ((temperature_check_exact qcRowsTest).2.1 1).mp hmem
  have hr : r = qcRow0 := by
    have : qcRowsTest.get? 0 = some qcRow0 := rfl
    rw [show (1 : Nat) - 1 = 0 by omega, this] at hget
    exact (Option.some.injEq _ _ ▸ hget).symm
  rw [hr] at hcond
  exact hcond (by simp [qcRow0])

/-- Python `int(str)` on decimal literals, for concrete instantiation
of the parser parameter. -/
def parseIntPy (s : String) : Option Int := s.toInt?

/-- Python `float(str)` on plain decimal literals, for concrete
instantiation of the parser parameter. -/
def parseFloatPy (s : String) : Option ℚ :=
  let neg := s.startsWith "-"
  let t := if neg then s.drop 1 else s
  match t.splitOn "." with
  | [a] => (a.toNat?).map (fun n => if neg then -(n : ℚ) else (n : ℚ))
  | [a, b] =>
      match a.toNat?, b.toNat? with
      | some n, some f =>
          some (if neg then -((n : ℚ) + (f : ℚ) / ((10 : ℚ) ^ b.length))
                else (n : ℚ) + (f : ℚ) / ((10 : ℚ) ^ b.length))
      | _, _ => none
  | _ => none

/-- C6 counterexample: a field named `brand` (no coercion suffix) whose
value is the literal string `"true"` is coerced to a boolean by
`validate_csv`, so its value does not remain string-typed as the claim
states. -/
theorem schema_coercion_counterexample :
    cleanRow parseIntPy parseFloatPy [("brand", "true")] =
      [("brand", PyVal.bool true)] ∧
    PyVal.bool true ≠ PyVal.str "true" := by
  constructor
  · rfl
  · intro h
    cases h

/-- C6 amended: the coercion convention, per field: empty string ⇒
null; the literals `"true"`/`"false"` ⇒ boolean before the numeric
pass (so a boolean `true` in a `_score` field becomes the integer 1 and
in a `_weight`/`price`-suffixed field becomes 1.0, while `false` stays
boolean); `_score`-suffixed fields coerce to integer only when the value
parses; fields whose name ends in `_weight` or ends in `price` coerce to
float only when the value parses; all remaining values stay
string-typed. -/
theorem schema_coercion_amended (parseI : String → Option Int)
    (parseF : String → Option ℚ) (row : List (String × String)) :
    cleanRow parseI parseF row =
      row.map (fun kv => (kv.1, coerceSpec parseI parseF kv.1 kv.2)) := by
  unfold cleanRow
  rw [List.map_map, List.map_map]
  apply List.map_congr_left
  intro kv _
  show (kv.1, numCoerce parseI parseF kv.1 (boolCoerce (emptyToNone kv.2))) = _
  rw [cleanValue_eq_coerceSpec]

/-! ### Weight-estimator claims -/

/-- C7: every R-cohort row's weight is target allocation divided by the
observed stratum proportion, rounded to 4 decimals; the observed count
of the row's own stratum is positive (so no division fault can occur),
and a zero observed proportion would fall back to weight 1. -/
theorem sampling_weight_formula (plan : List (String × ℚ))
    (products : List CsvRow) (p : CsvRow) (a : String) (t : ℚ)
    (hp : p ∈ products) (hR : isRCohort p = true)
    (ha : dlookup p "asin" = some a)
    (ht : dlookup plan (stratumOf p) = some t)
    (hnd : ((products.filter isRCohort).map asinKey).Nodup) :
    0 < stratumCount (products.filter isRCohort) (stratumOf p) ∧
    dlookup (compute_weights plan products) a =
      some (round4 (t /
        ((stratumCount (products.filter isRCohort) (stratumOf p) : ℚ) /
         ((products.filter isRCohort).length : ℚ)))) ∧
    (∀ (n : Nat) (s : String), wcalc plan n 0 s = 1) := by
  have hpr : p ∈ products.filter isRCohort := List.mem_filter.mpr ⟨hp, hR⟩
  have hcnt : 0 < stratumCount (products.filter isRCohort) (stratumOf p) := by
    unfold stratumCount
    exact List.length_pos_of_mem (List.mem_filter.mpr ⟨hpr, by simp⟩)
  refine ⟨hcnt, ?_, ?_⟩
  · have hrne : (products.filter isRCohort).isEmpty = false := by
      cases hemp : (products.filter isRCohort).isEmpty
      · rfl
      · rw [List.isEmpty_iff.mp hemp] at hpr
        simp at hpr
    unfold compute_weights
    rw [if_neg (by simp [hrne])]
    have hlook := dlookup_wfold_mem
      (fun q => wcalc plan (products.filter isRCohort).length
        (stratumCount (products.filter isRCohort) (stratumOf q)) (stratumOf q))
      (products.filter isRCohort) [] p hpr hnd
    have hak : asinKey p = a := by simp [asinKey, ha]
    rw [hak] at hlook
    rw [hlook]
    have htot : 0 < (products.filter isRCohort).length :=
      List.length_pos_of_mem hpr
    have hsp : (0 : ℚ) <
        (stratumCount (products.filter isRCohort) (stratumOf p) : ℚ) /
          ((products.filter isRCohort).length : ℚ) :=
      div_pos (by exact_mod_cast hcnt) (by exact_mod_cast htot)
    congr 1
    show wcalc plan (products.filter isRCohort).length
        (stratumCount (products.filter isRCohort) (stratumOf p)) (stratumOf p) =
      round4 (t /
        ((stratumCount (products.filter isRCohort) (stratumOf p) : ℚ) /
         ((products.filter isRCohort).length : ℚ)))
    unfold wcalc allocOf
    simp only [ht, Option.getD_some]
    rw [if_pos htot, if_pos hsp]
  · intro n s
    unfold wcalc
    by_cases hn : 0 < n <;> simp [hn]

/-- An R-cohort product row. -/
def rowR : CsvRow :=
  [("asin", "A1"), ("sampling_cohort", "R"), ("category_hint", "supplements"),
   ("brand", "Acme"), ("sampling_weight", "1.0")]

/-- A targeted-cohort product row. -/
def rowT : CsvRow :=
  [("asin", "A2"), ("sampling_cohort", "T"), ("category_hint", "supplements"),
   ("brand", "Bulk"), ("sampling_weight", "")]

/-- A two-row product table. -/
def rowsTest : List CsvRow := [rowR, rowT]

/-- A one-stratum sampling plan. -/
def planTest : List (String × ℚ) := [("supplements", 1)]

/-- A concrete weight formatter. -/
def fmtWTest : ℚ → String := fun _ => "w"

/-- Witness for C7 on the concrete table. -/
theorem sampling_weight_formula_witness :
    0 < stratumCount (rowsTest.filter isRCohort) (stratumOf rowR) ∧
    dlookup (compute_weights planTest rowsTest) "A1" =
      some (round4 ((1 : ℚ) /
        ((stratumCount (rowsTest.filter isRCohort) (stratumOf rowR) : ℚ) /
         ((rowsTest.filter isRCohort).length : ℚ)))) :=
  ⟨(sampling_weight_formula planTest rowsTest rowR "A1" 1 (List.Mem.head _)
      (by decide) rfl rfl (by decide)).1,
   (sampling_weight_formula planTest rowsTest rowR "A1" 1 (List.Mem.head _)
      (by decide) rfl rfl (by decide)).2.1⟩

/-- C8: the weight pass rewrites only the `sampling_weight` column —
for every row, every other column's value is unchanged and the column
layout is preserved — and a row outside the R cohort is left entirely
unchanged (assuming distinct asins across the table). -/
theorem weight_pass_frame (fmtW : ℚ → String) (plan : List (String × ℚ))
    (rows : List CsvRow) (hnd : (rows.map asinKey).Nodup)
    (i : Nat) (row row' : CsvRow)
    (hrow : rows.get? i = some row)
    (hrow' : (weightsMain fmtW plan rows).get? i = some row') :
    (∀ k, k ≠ "sampling_weight" → dlookup row' k = dlookup row k) ∧
    (hasKey row "sampling_weight" = true →
      row'.map Prod.fst = row.map Prod.fst) ∧
    (isRCohort row = false → row' = row) := by
  have hmap : (weightsMain fmtW plan rows).get? i =
      (rows.get? i).map (updRowWeight fmtW (compute_weights plan rows)) := by
    unfold weightsMain applyWeights
    exact List.get?_map _ _ _
  rw [hmap, hrow] at hrow'
  simp only [Option.map_some', Option.some.injEq] at hrow'
  cases hw : dlookup (compute_weights plan rows) (asinKey row) with
  | none =>
      have hupd : updRowWeight fmtW (compute_weights plan rows) row = row := by
        unfold updRowWeight
        rw [hw]
      rw [hupd] at hrow'
      rw [← hrow']
      exact ⟨fun k _ => rfl, fun _ => rfl, fun _ => rfl⟩
  | some w =>
      have hupd : updRowWeight fmtW (compute_weights plan rows) row =
          dictUpdate row "sampling_weight" (fmtW w) := by
        unfold updRowWeight
        rw [hw]
      rw [hupd] at hrow'
      refine ⟨?_, ?_, ?_⟩
      · intro k hk
        rw [← hrow']
        exact dlookup_dictUpdate_ne row _ k _ hk
      · intro hsw
        rw [← hrow']
        exact dictUpdate_keys row _ _ hsw
      · intro hRfalse
        exfalso
        have hsome : (dlookup (compute_weights plan rows) (asinKey row)).isSome := by
          rw [hw]
          rfl
        unfold compute_weights at hsome
        by_cases hemp : (rows.filter isRCohort).isEmpty
        · rw [if_pos (by simp [hemp])] at hsome
          simp [dlookup] at hsome
        · rw [if_neg (by simp [hemp])] at hsome
          rcases dlookup_wfold_isSome _ (rows.filter isRCohort) [] (asinKey row)
            hsome with hmem | hfalse
          · obtain ⟨q, hq, hqa⟩ := List.mem_map.mp hmem
            have hqrows : q ∈ rows := (List.mem_filter.mp hq).1
            have hqR : isRCohort q = true := by
              have := (List.mem_filter.mp hq).2
              simpa using this
            have hrowmem : row ∈ rows := List.get?_mem hrow
            have heq : q = row := List.inj_on_of_nodup_map hnd hqrows hrowmem hqa
            rw [heq, hRfalse] at hqR
            exact Bool.false_ne_true hqR
          · simp [dlookup] at hfalse

/-- Witness for C8: the non-weight column `brand` of the weighted row is
unchanged after the rewrite pass. -/
theorem weight_pass_frame_witness :
    dlookup (dictUpdate rowR "sampling_weight" "w") "brand" =
      dlookup rowR "brand" :=
  (weight_pass_frame fmtWTest planTest rowsTest (by decide) 0 rowR
    (dictUpdate rowR "sampling_weight" "w") rfl (by rfl)).1 "brand" (by decide)

end Tervyx
